import Mathlib

/-!
# Verification of the NodeModal path-addressed JSON patcher

This file gives a shallow embedding of the helper logic of
src/features/modals/NodeModal/index.tsx: the path codec
(jsonPathToString and the path-string parsing inside updateJsonAtPath),
the node normalizer (normalizeNodeData), the tree patcher
(updateJsonAtPath) and the Save handler (handleSave), together with
theorems settling the specification claims about them.

JavaScript builtins used by the source (JSON.parse, JSON.stringify,
String.prototype.split, String.prototype.replace, Number, typeof,
Object.entries, truthiness) are modelled explicitly below; each model
carries a comment stating the fragment of the builtin it covers.
Machine numbers are modelled as Int (the modal's logic never relies on
float behaviour; every number the claims exercise is a small integer).
-/

/-! ## Decimal numerals

Models the JavaScript number-to-string conversion (for non-negative
integers) and the digit-string fragment of the Number() coercion. -/

/-- The character for a single decimal digit. -/
def digitChar (d : Nat) : Char := Char.ofNat (48 + d)

/-- Fuel-driven decimal rendering of a natural number (least significant
digit produced last), mirroring the JavaScript String() conversion of a
non-negative integer. The fuel makes the recursion structural so that
concrete evaluations reduce in the kernel. -/
def natReprAux : Nat → Nat → List Char
  | 0, _ => []
  | fuel + 1, n => if n < 10 then [digitChar n] else natReprAux fuel (n / 10) ++ [digitChar (n % 10)]

/-- Decimal digits of a natural number, as JavaScript String() renders it. -/
def natRepr (n : Nat) : List Char := natReprAux (n + 1) n

/-- Value of a list of decimal digit characters. -/
def digitsVal (ds : List Char) : Nat := ds.foldl (fun a c => a * 10 + (c.toNat - 48)) 0

/-- Models the JavaScript Number(s) coercion on the strings this codec
actually meets: the empty string converts to 0, a nonempty all-digit
string converts to its decimal value, and anything else (in particular
any string containing a double quote, such as every quoted path segment)
is NaN, rendered here as none. JavaScript additionally accepts signs,
fractions, exponents, hex prefixes and surrounding whitespace; none of
those shapes can occur in a segment produced by jsonPathToString. -/
def jsNum? (cs : List Char) : Option Nat :=
  if cs = [] then some 0
  else if cs.all Char.isDigit then some (digitsVal cs) else none

/-! ## Path segments and the path codec -/

/-- One segment of a structural path: an object key or an array index.
The source stores a JavaScript string or number per segment; the claims
restrict numeric segments to non-negative integers. -/
inductive Segment where
  | str (s : String)
  | num (n : Nat)
deriving DecidableEq, Repr

/-- Rendering of one segment inside jsonPathToString: numbers bare,
strings wrapped in double quotes (source line 158). -/
def segRepr : Segment → List Char
  | .num n => natRepr n
  | .str s => '"' :: s.data ++ ['"']

/-- Joining with the literal separator between bracket groups, modelling
segments.join of the two-character separator (source line 159). -/
def joinBrk : List (List Char) → List Char
  | [] => []
  | [r] => r
  | r :: rs => r ++ ']' :: '[' :: joinBrk rs

/-- jsonPathToString (source lines 156-160): the root or a missing path
serializes to the dollar sign; otherwise the dollar sign followed by each
segment in brackets. -/
def jsonPathToString (path : Option (List Segment)) : String :=
  match path with
  | none => "$"
  | some [] => "$"
  | some (s :: ss) => String.mk ('$' :: '[' :: joinBrk ((s :: ss).map segRepr) ++ [']'])

/-- Removal of a leading dollar-bracket pair, the first half of the
regex replace in updateJsonAtPath (source line 166). The anchored regex
touches only the first two characters of the original string. -/
def stripDollar : List Char → List Char
  | '$' :: '[' :: rest => rest
  | cs => cs

/-- Removal of one trailing closing bracket, the second half of the
regex replace in updateJsonAtPath (source line 166). The anchored regex
touches only the last character of the original string. -/
def stripTrail (cs : List Char) : List Char :=
  if cs.getLast? = some ']' then cs.dropLast else cs

/-- Splitting on the literal two-character bracket separator, modelling
String.prototype.split of the separator (source line 167): leftmost,
non-overlapping matches. -/
def splitBrk : List Char → List (List Char)
  | [] => [[]]
  | [c] => [[c]]
  | c :: c2 :: cs =>
    if c = ']' ∧ c2 = '[' then [] :: splitBrk cs
    else
      match splitBrk (c2 :: cs) with
      | [] => [[c]]
      | h :: t => (c :: h) :: t

/-- Removal of every double-quote character from a piece, modelling the
global quote-stripping replace on one segment (source line 168). -/
def removeQuotes (cs : List Char) : List Char := cs.filter (fun c => c ≠ '"')

/-- Interpretation of one split piece (source line 168): a piece Number
can convert becomes a numeric segment, anything else has its quotes
stripped and becomes a string segment. -/
def pieceToSeg (cs : List Char) : Segment :=
  match jsNum? cs with
  | some n => .num n
  | none => .str (String.mk (removeQuotes cs))

/-- The path-string parsing performed inside updateJsonAtPath (source
lines 165-168): strip the leading dollar-bracket and trailing bracket,
split on the bracket separator, interpret each piece. -/
def parsePath (s : String) : List Segment :=
  (splitBrk (stripTrail (stripDollar s.data))).map pieceToSeg


/-! ## JSON values

A mutual inductive presentation of the standard JSON value type (the
items of an array and the fields of an object get their own list-like
types so that every function below is structurally recursive and hence
evaluable by the kernel). Objects keep their fields in JavaScript
property order. -/

mutual
inductive JValue where
  | null
  | bool (b : Bool)
  | num (n : Int)
  | str (s : String)
  | arr (items : JItems)
  | obj (fields : JFields)

inductive JItems where
  | nil
  | cons (hd : JValue) (tl : JItems)

inductive JFields where
  | nil
  | cons (key : String) (val : JValue) (tl : JFields)
end

/-- JavaScript truthiness of a JSON value: null, false, 0 and the empty
string are falsy; every array and object (even empty) is truthy. -/
def truthy : JValue → Bool
  | .null => false
  | .bool b => b
  | .num n => n != 0
  | .str s => s != ""
  | .arr _ => true
  | .obj _ => true

/-- Whether the JavaScript typeof operator answers "object" for the
value: true for null (a classic JavaScript quirk), arrays and objects. -/
def typeofObject : JValue → Bool
  | .null => true
  | .arr _ => true
  | .obj _ => true
  | _ => false

/-- Property lookup in an object, by key. -/
def lookupField : JFields → String → Option JValue
  | .nil, _ => none
  | .cons k v rest, key => if k = key then some v else lookupField rest key

/-- Property assignment on an object: an existing key keeps its position
and gets the new value, a new key is appended, as JavaScript property
creation does. -/
def setField : JFields → String → JValue → JFields
  | .nil, k, v => .cons k v .nil
  | .cons k0 v0 rest, k, v => if k0 = k then .cons k v rest else .cons k0 v0 (setField rest k v)

/-- Index read on an array. -/
def itemsGet? : JItems → Nat → Option JValue
  | .nil, _ => none
  | .cons h _, 0 => some h
  | .cons _ t, n + 1 => itemsGet? t n

/-- Index write on an array. Writing past the end lengthens the array;
JavaScript leaves holes there, which JSON.stringify (the only consumer
of the patched value) renders as null, so the holes are modelled as
null values. -/
def setItem : JItems → Nat → JValue → JItems
  | .nil, 0, v => .cons v .nil
  | .nil, n + 1, v => .cons .null (setItem .nil n v)
  | .cons _ t, 0, v => .cons v t
  | .cons h t, n + 1, v => .cons h (setItem t n v)

/-- The property read current[segment] of the patch loop (source line
175). Reading a property of null throws a TypeError (error ()); a read
on a boolean, number or string yields undefined (none; the string
index/length idiosyncrasies are not modelled, no path reaches them
before the subsequent write throws); a numeric key on an object is the
decimal string key, as JavaScript converts it. A string key on an array
would read an expando property, invisible to JSON.stringify, modelled
as undefined. -/
def getSeg : JValue → Segment → Except Unit (Option JValue)
  | .null, _ => .error ()
  | .bool _, _ => .ok none
  | .num _, _ => .ok none
  | .str _, _ => .ok none
  | .arr xs, .num n => .ok (itemsGet? xs n)
  | .arr _, .str _ => .ok none
  | .obj fs, .str k => .ok (lookupField fs k)
  | .obj fs, .num n => .ok (lookupField fs (String.mk (natRepr n)))

/-- The property write current[segment] = v of the patch loop (source
lines 175 and 178). Writing a property of null or a primitive throws a
TypeError in strict mode (error ()); a string key written on an array
creates an expando property that JSON.stringify (the only consumer)
never shows, so the array is returned unchanged. -/
def setSeg : JValue → Segment → JValue → Except Unit JValue
  | .obj fs, .str k, v => .ok (.obj (setField fs k v))
  | .obj fs, .num n, v => .ok (.obj (setField fs (String.mk (natRepr n)) v))
  | .arr xs, .num n, v => .ok (.arr (setItem xs n v))
  | .arr xs, .str _, _ => .ok (.arr xs)
  | _, _, _ => .error ()

/-- The descend-and-assign loop of updateJsonAtPath (source lines
173-178), written functionally: for every segment but the last, read the
child, replace it by a fresh empty object when it is missing or falsy
(current[segment] || braces, line 175), descend, and store the updated
child back; at the last segment assign the new value. The imperative
original stores the child before descending and mutates it in place
through the alias; since the walked structure is a freshly parsed clone
(tree-shaped, no internal sharing), storing the descended result
afterwards yields the same value. -/
def walkSet : JValue → Segment → List Segment → JValue → Except Unit JValue
  | cur, last, [], v => setSeg cur last v
  | cur, seg, nx :: rest, v => do
    let child? ← getSeg cur seg
    let child := match child? with
      | some c => if truthy c then c else JValue.obj .nil
      | none => JValue.obj .nil
    let child2 ← walkSet child nx rest v
    setSeg cur seg child2

/-- updateJsonAtPath (source lines 162-180). A falsy (empty) path string
returns the input itself (line 163). Otherwise the path string is
parsed, the document deep-cloned via JSON.parse of JSON.stringify -
the identity on pure JSON trees, so the clone is implicit here - and
the segments walked. An empty segment list cannot occur (splitBrk never
returns an empty list); JavaScript would read index -1 as undefined and
assign the key "undefined", modelled for totality. -/
def updateJsonAtPath (jsonObj : JValue) (path : String) (newValue : JValue) : Except Unit JValue :=
  if path = "" then .ok jsonObj
  else
    match parsePath path with
    | [] => setSeg jsonObj (.str "undefined") newValue
    | s :: rest => walkSet jsonObj s rest newValue


/-! ## JSON.stringify with two-space indentation

Models JSON.stringify(value, null, 2), the pretty form the modal writes
to the document store and shows in the edit buffer. -/

/-- A run of spaces. -/
def spaces (n : Nat) : String := String.mk (List.replicate n ' ')

/-- Escaping of one character inside a JSON string literal, as
JSON.stringify performs it: quote, backslash and the named control
escapes, with remaining control characters in the four-digit unicode
form (only code points below 32 need it here). -/
def escChar (c : Char) : List Char :=
  if c = '"' then ['\\', '"']
  else if c = '\\' then ['\\', '\\']
  else if c = '\n' then ['\\', 'n']
  else if c = '\t' then ['\\', 't']
  else if c = '\r' then ['\\', 'r']
  else if c = Char.ofNat 8 then ['\\', 'b']
  else if c = Char.ofNat 12 then ['\\', 'f']
  else if c.toNat < 32 then
    ['\\', 'u', '0', '0', digitChar (c.toNat / 16), digitChar (c.toNat % 16)]
  else [c]

/-- A JSON string literal for s, escaped as JSON.stringify writes it. -/
def quoteStr (s : String) : String :=
  String.mk ('"' :: s.data.foldr (fun c acc => escChar c ++ acc) ['"'])

/-- Decimal rendering of an integer, as JSON.stringify writes an
integral number. -/
def intRepr (n : Int) : String :=
  if n < 0 then String.mk ('-' :: natRepr n.natAbs) else String.mk (natRepr n.natAbs)

mutual
/-- JSON.stringify(v, null, 2) at nesting depth d: primitives inline,
empty containers inline, nonempty containers with each entry on its own
line indented two spaces per level. -/
def stringifyV (d : Nat) : JValue → String
  | .null => "null"
  | .bool true => "true"
  | .bool false => "false"
  | .num n => intRepr n
  | .str s => quoteStr s
  | .arr .nil => "[]"
  | .arr (.cons h t) =>
    "[\n" ++ stringifyItems (d + 1) (.cons h t) ++ "\n" ++ spaces (2 * d) ++ "]"
  | .obj .nil => "\x7b\x7d"
  | .obj (.cons k v t) =>
    "\x7b\n" ++ stringifyFields (d + 1) (.cons k v t) ++ "\n" ++ spaces (2 * d) ++ "\x7d"

/-- The comma-newline separated item lines of a nonempty array (the nil
case is never reached: stringifyV only passes nonempty item lists). -/
def stringifyItems (d : Nat) : JItems → String
  | .nil => ""
  | .cons h .nil => spaces (2 * d) ++ stringifyV d h
  | .cons h (.cons h2 t2) =>
    spaces (2 * d) ++ stringifyV d h ++ ",\n" ++ stringifyItems d (.cons h2 t2)

/-- The comma-newline separated field lines of a nonempty object (the
nil case is never reached: stringifyV only passes nonempty fields). -/
def stringifyFields (d : Nat) : JFields → String
  | .nil => ""
  | .cons k v .nil => spaces (2 * d) ++ quoteStr k ++ ": " ++ stringifyV d v
  | .cons k v (.cons k2 v2 t2) =>
    spaces (2 * d) ++ quoteStr k ++ ": " ++ stringifyV d v ++ ",\n" ++
      stringifyFields d (.cons k2 v2 t2)
end

/-- JSON.stringify(v, null, 2) as the source calls it (lines 51, 140
and 153). -/
def jsonStringify2 (v : JValue) : String := stringifyV 0 v


/-! ## Node rows and normalizeNodeData -/

/-- One row of a node's text representation, as the graph store holds
it: an optional key (absent for a bare scalar node), a value and a type
tag. Only the fields the modal touches are modelled. -/
structure NodeRow where
  key : Option String
  value : JValue
  type : String

/-- JavaScript truthiness of a row's key: present and nonempty. -/
def keyTruthy (r : NodeRow) : Bool :=
  match r.key with
  | some s => s != ""
  | none => false

/-- One step of the reduce of normalizeNodeData (source lines 144-148):
assign key to value only when the key is truthy and typeof value is not
"object". -/
def rowStep (acc : JFields) (r : NodeRow) : JFields :=
  match r.key with
  | some k => if keyTruthy r && !typeofObject r.value then setField acc k r.value else acc
  | none => acc

/-- The reduce of normalizeNodeData (source lines 143-151). -/
def rowsReduce (rows : List NodeRow) : JFields := rows.foldl rowStep .nil

/-- normalizeNodeData (source lines 136-154): empty row list prints an
empty object; a single row with falsy key prints the bare value;
otherwise the reduced object is pretty-printed. -/
def normalizeNodeData (nodeRows : List NodeRow) : String :=
  match nodeRows with
  | [] => "\x7b\x7d"
  | [r] =>
    if !keyTruthy r then jsonStringify2 r.value
    else jsonStringify2 (.obj (rowsReduce [r]))
  | rows => jsonStringify2 (.obj (rowsReduce rows))


/-! ## JSON.parse

A fuel-driven recursive-descent model of the JSON.parse builtin. The
fuel (the input length suffices, one unit per nesting level) keeps every
function structurally recursive and kernel-evaluable. Two documented
restrictions, neither reachable by any claim: numbers are integral (no
fraction or exponent forms, and the leading-zero prohibition is not
enforced) and four-digit unicode escapes are rejected. -/

/-- Skip the JSON whitespace characters. -/
def skipWs : List Char → List Char
  | c :: cs => if c = ' ' ∨ c = '\t' ∨ c = '\n' ∨ c = '\r' then skipWs cs else c :: cs
  | [] => []

/-- Parse the remainder of a JSON string literal after its opening
quote, handling the named escapes; returns the contents and the rest of
the input. -/
def parseStrAux : List Char → Except Unit (List Char × List Char)
  | [] => .error ()
  | '"' :: rest => .ok ([], rest)
  | '\\' :: e :: rest =>
    match
      (if e = '"' then some '"'
       else if e = '\\' then some '\\'
       else if e = '/' then some '/'
       else if e = 'n' then some '\n'
       else if e = 't' then some '\t'
       else if e = 'r' then some '\r'
       else if e = 'b' then some (Char.ofNat 8)
       else if e = 'f' then some (Char.ofNat 12)
       else none) with
    | some c => do
      let (s, r2) ← parseStrAux rest
      .ok (c :: s, r2)
    | none => .error ()
  | c :: rest =>
    if c.toNat < 32 then .error ()
    else do
      let (s, r2) ← parseStrAux rest
      .ok (c :: s, r2)

/-- Parse a nonempty run of decimal digits. -/
def parseNatTok (cs : List Char) : Except Unit (Nat × List Char) :=
  match cs.takeWhile Char.isDigit with
  | [] => .error ()
  | ds => .ok (digitsVal ds, cs.drop ds.length)

mutual
/-- Parse one JSON value (leading whitespace allowed). -/
def parseValue : Nat → List Char → Except Unit (JValue × List Char)
  | 0, _ => .error ()
  | fuel + 1, cs =>
    match skipWs cs with
    | 'n' :: 'u' :: 'l' :: 'l' :: rest => .ok (.null, rest)
    | 't' :: 'r' :: 'u' :: 'e' :: rest => .ok (.bool true, rest)
    | 'f' :: 'a' :: 'l' :: 's' :: 'e' :: rest => .ok (.bool false, rest)
    | '"' :: rest => do
      let (l, r) ← parseStrAux rest
      .ok (.str (String.mk l), r)
    | '[' :: rest => parseArr fuel rest
    | '\x7b' :: rest => parseObj fuel rest
    | '-' :: rest => do
      let (n, r) ← parseNatTok rest
      .ok (.num (-(n : Int)), r)
    | c :: rest =>
      if c.isDigit then do
        let (n, r) ← parseNatTok (c :: rest)
        .ok (.num (n : Int), r)
      else .error ()
    | [] => .error ()

/-- Parse the contents of an array after its opening bracket. -/
def parseArr : Nat → List Char → Except Unit (JValue × List Char)
  | 0, _ => .error ()
  | fuel + 1, cs =>
    match skipWs cs with
    | ']' :: rest => .ok (.arr .nil, rest)
    | cs2 => do
      let (v, r) ← parseValue fuel cs2
      let (t, r2) ← parseItemsTail fuel r
      .ok (.arr (.cons v t), r2)

/-- Parse the comma-led continuation of an array up to its closing
bracket. -/
def parseItemsTail : Nat → List Char → Except Unit (JItems × List Char)
  | 0, _ => .error ()
  | fuel + 1, cs =>
    match skipWs cs with
    | ']' :: rest => .ok (.nil, rest)
    | ',' :: rest => do
      let (v, r) ← parseValue fuel rest
      let (t, r2) ← parseItemsTail fuel r
      .ok (.cons v t, r2)
    | _ => .error ()

/-- Parse the contents of an object after its opening brace. -/
def parseObj : Nat → List Char → Except Unit (JValue × List Char)
  | 0, _ => .error ()
  | fuel + 1, cs =>
    match skipWs cs with
    | '\x7d' :: rest => .ok (.obj .nil, rest)
    | cs2 => parsePairs fuel JFields.nil cs2

/-- Parse key-value pairs up to the closing brace, accumulating with
property assignment (so a duplicate key keeps its first position and
last value, as JSON.parse resolves duplicates). -/
def parsePairs : Nat → JFields → List Char → Except Unit (JValue × List Char)
  | 0, _, _ => .error ()
  | fuel + 1, acc, cs =>
    match skipWs cs with
    | '"' :: rest => do
      let (k, r1) ← parseStrAux rest
      match skipWs r1 with
      | ':' :: r2 => do
        let (v, r3) ← parseValue fuel r2
        match skipWs r3 with
        | ',' :: r4 => parsePairs fuel (setField acc (String.mk k) v) r4
        | '\x7d' :: r4 => .ok (.obj (setField acc (String.mk k) v), r4)
        | _ => .error ()
      | _ => .error ()
    | _ => .error ()
end

/-- JSON.parse of a whole string: one value, surrounded by nothing but
whitespace; a syntax error is the thrown exception. -/
def jsonParse (s : String) : Except Unit JValue :=
  match parseValue (s.data.length + 1) s.data with
  | .error _ => .error ()
  | .ok (v, rest) => if skipWs rest = [] then .ok v else .error ()


/-! ## The stores and the Save handler -/

/-- Plain list of an items chain. -/
def itemsToList : JItems → List JValue
  | .nil => []
  | .cons h t => h :: itemsToList t

/-- Plain association list of a fields chain. -/
def fieldsToList : JFields → List (String × JValue)
  | .nil => []
  | .cons k v t => (k, v) :: fieldsToList t

/-- Models Object.entries: object fields in property order; array items
under their decimal index keys; the characters of a string under index
keys; no entries for booleans and numbers; a TypeError (error ()) for
null, exactly the case the Save handler can hit. -/
def jsEntries : JValue → Except Unit (List (String × JValue))
  | .null => .error ()
  | .obj fs => .ok (fieldsToList fs)
  | .arr xs => .ok ((itemsToList xs).enum.map (fun p => (String.mk (natRepr p.1), p.2)))
  | .str s => .ok (s.data.enum.map (fun p => (String.mk (natRepr p.1), .str (String.mk [p.2]))))
  | .bool _ => .ok []
  | .num _ => .ok []

/-- The selected graph node, restricted to the fields the modal touches:
its identifier, its row list and its structural path. -/
structure GraphNode where
  id : Option String
  text : List NodeRow
  path : List Segment

/-- The slice of the graph store the Save handler reads and writes. -/
structure GraphState where
  selectedNode : Option GraphNode

/-- The setState updater of handleSave (source lines 54-68): keep the
state unchanged when no node is selected; otherwise replace the selected
node's id by itself-or-empty and its row list by one row per entry of
the parsed content, each with the default type tag. Object.entries
throws (error ()) when the parsed content is null. -/
def saveUpdater (st : GraphState) (parsedContent : JValue) : Except Unit GraphState :=
  match st.selectedNode with
  | none => .ok st
  | some nd => do
    let es ← jsEntries parsedContent
    .ok ⟨some ⟨some (nd.id.getD ""),
      es.map (fun kv => ⟨some kv.1, kv.2, "default"⟩),
      nd.path⟩⟩

/-- The observable outcome of one Save click: the argument of the
setContents call when it happened, the graph store afterwards, whether
the success toast fired (otherwise the failure toast fired), and
whether the modal is still in the Editing state. -/
structure SaveOutcome where
  written : Option String
  graph : GraphState
  success : Bool
  isEditing : Bool

/-- handleSave (source lines 41-75), entered in the Editing state. The
whole body is one try block: a throw anywhere lands in the catch, which
fires the failure toast and leaves the state Editing. The throw points,
in evaluation order: JSON.parse of the edit buffer (line 43), JSON.parse
of the document text (line 45), the patch walk (line 44, a TypeError on
a write through a primitive), and Object.entries inside the setState
updater (line 61) - the last one AFTER setContents has already written
(line 51). -/
def handleSave (fullJson : String) (editedContent : String) (st : GraphState) : SaveOutcome :=
  match jsonParse editedContent with
  | .error _ => ⟨none, st, false, true⟩
  | .ok parsedContent =>
    match jsonParse fullJson with
    | .error _ => ⟨none, st, false, true⟩
    | .ok doc =>
      match updateJsonAtPath doc (jsonPathToString (st.selectedNode.map (·.path))) parsedContent with
      | .error _ => ⟨none, st, false, true⟩
      | .ok updatedJson =>
        match saveUpdater st parsedContent with
        | .error _ => ⟨some (jsonStringify2 updatedJson), st, false, true⟩
        | .ok st2 => ⟨some (jsonStringify2 updatedJson), st2, true, false⟩


/-! ## Address-annotated values for the aliasing claim

JavaScript objects and arrays are heap references; "part of the returned
value is reference-identical to part of the input" is a statement about
those references. AVal repeats the JValue tree with every array and
object node carrying its heap address. All data JSON.parse ever produces
is tree-shaped (no internal sharing), so a tree with addresses is a
faithful picture of the heap reachable from one root, and the patcher
below repeats updateJsonAtPath on it verbatim, with the two allocation
sites made explicit: the deep clone (JSON.parse of JSON.stringify,
source line 170) allocates only fresh addresses, and each vivified empty
object (line 175) is a fresh allocation. -/

mutual
inductive AVal where
  | null
  | bool (b : Bool)
  | num (n : Int)
  | str (s : String)
  | arr (a : Nat) (items : AItems)
  | obj (a : Nat) (fields : AFields)

inductive AItems where
  | nil
  | cons (hd : AVal) (tl : AItems)

inductive AFields where
  | nil
  | cons (key : String) (val : AVal) (tl : AFields)
end

mutual
/-- The heap addresses occurring in a value. -/
def AVal.addrs : AVal → List Nat
  | .arr a xs => a :: AItems.addrs xs
  | .obj a fs => a :: AFields.addrs fs
  | _ => []

/-- The heap addresses occurring in an item chain. -/
def AItems.addrs : AItems → List Nat
  | .nil => []
  | .cons h t => AVal.addrs h ++ AItems.addrs t

/-- The heap addresses occurring in a field chain. -/
def AFields.addrs : AFields → List Nat
  | .nil => []
  | .cons _ v t => AVal.addrs v ++ AFields.addrs t
end

mutual
/-- The deep clone JSON.parse(JSON.stringify(x)) of source line 170:
same tree, every container at a fresh address, threading an allocation
counter that starts at f and hands out f, f+1, and so on. -/
def AVal.clone : Nat → AVal → Nat × AVal
  | f, .arr _ xs =>
    match AItems.clone (f + 1) xs with
    | (f1, xs2) => (f1, .arr f xs2)
  | f, .obj _ fs =>
    match AFields.clone (f + 1) fs with
    | (f1, fs2) => (f1, .obj f fs2)
  | f, v => (f, v)

/-- Clone of an item chain (counter threaded left to right). -/
def AItems.clone : Nat → AItems → Nat × AItems
  | f, .nil => (f, .nil)
  | f, .cons h t =>
    match AVal.clone f h with
    | (f1, h2) =>
      match AItems.clone f1 t with
      | (f2, t2) => (f2, .cons h2 t2)

/-- Clone of a field chain (counter threaded left to right). -/
def AFields.clone : Nat → AFields → Nat × AFields
  | f, .nil => (f, .nil)
  | f, .cons k v t =>
    match AVal.clone f v with
    | (f1, v2) =>
      match AFields.clone f1 t with
      | (f2, t2) => (f2, .cons k v2 t2)
end

/-- Truthiness, as in truthy. -/
def truthyA : AVal → Bool
  | .null => false
  | .bool b => b
  | .num n => n != 0
  | .str s => s != ""
  | .arr _ _ => true
  | .obj _ _ => true

/-- Field lookup, as in lookupField. -/
def lookupFieldA : AFields → String → Option AVal
  | .nil, _ => none
  | .cons k v rest, key => if k = key then some v else lookupFieldA rest key

/-- Field assignment, as in setField; a JavaScript property write leaves
the object's own identity (address) untouched. -/
def setFieldA : AFields → String → AVal → AFields
  | .nil, k, v => .cons k v .nil
  | .cons k0 v0 rest, k, v =>
    if k0 = k then .cons k v rest else .cons k0 v0 (setFieldA rest k v)

/-- Index read, as in itemsGet?. -/
def itemsGetA? : AItems → Nat → Option AVal
  | .nil, _ => none
  | .cons h _, 0 => some h
  | .cons _ t, n + 1 => itemsGetA? t n

/-- Index write, as in setItem. -/
def setItemA : AItems → Nat → AVal → AItems
  | .nil, 0, v => .cons v .nil
  | .nil, n + 1, v => .cons .null (setItemA .nil n v)
  | .cons _ t, 0, v => .cons v t
  | .cons h t, n + 1, v => .cons h (setItemA t n v)

/-- The property read of the patch loop, as in getSeg. -/
def getSegA : AVal → Segment → Except Unit (Option AVal)
  | .null, _ => .error ()
  | .bool _, _ => .ok none
  | .num _, _ => .ok none
  | .str _, _ => .ok none
  | .arr _ xs, .num n => .ok (itemsGetA? xs n)
  | .arr _ _, .str _ => .ok none
  | .obj _ fs, .str k => .ok (lookupFieldA fs k)
  | .obj _ fs, .num n => .ok (lookupFieldA fs (String.mk (natRepr n)))

/-- The property write of the patch loop, as in setSeg; the written
container keeps its address. -/
def setSegA : AVal → Segment → AVal → Except Unit AVal
  | .obj a fs, .str k, v => .ok (.obj a (setFieldA fs k v))
  | .obj a fs, .num n, v => .ok (.obj a (setFieldA fs (String.mk (natRepr n)) v))
  | .arr a xs, .num n, v => .ok (.arr a (setItemA xs n v))
  | .arr a xs, .str _, _ => .ok (.arr a xs)
  | _, _, _ => .error ()

/-- The descend-and-assign loop, as in walkSet, threading the allocation
counter: each vivified empty object is allocated at the next fresh
address. -/
def walkSetA : Nat → AVal → Segment → List Segment → AVal → Except Unit (Nat × AVal)
  | f, cur, last, [], v =>
    match setSegA cur last v with
    | .error _ => .error ()
    | .ok out => .ok (f, out)
  | f, cur, seg, nx :: rest, v =>
    match getSegA cur seg with
    | .error _ => .error ()
    | .ok child? =>
      let fc : Nat × AVal :=
        match child? with
        | some c => if truthyA c then (f, c) else (f + 1, .obj f .nil)
        | none => (f + 1, .obj f .nil)
      match walkSetA fc.1 fc.2 nx rest v with
      | .error _ => .error ()
      | .ok (f2, child2) =>
        match setSegA cur seg child2 with
        | .error _ => .error ()
        | .ok out => .ok (f2, out)

/-- updateJsonAtPath on address-annotated values, as in updateJsonAtPath
but with the deep clone of source line 170 explicit: fresh addresses are
drawn starting at f. A falsy path returns the input itself - the one
branch that skips the clone. -/
def updateJsonAtPathA (f : Nat) (root : AVal) (path : String) (newValue : AVal) :
    Except Unit AVal :=
  if path = "" then .ok root
  else
    match parsePath path with
    | [] =>
      match setSegA (AVal.clone f root).2 (.str "undefined") newValue with
      | .error _ => .error ()
      | .ok out => .ok out
    | s :: rest =>
      match walkSetA (AVal.clone f root).1 (AVal.clone f root).2 s rest newValue with
      | .error _ => .error ()
      | .ok (_, out) => .ok out

/-- Whether two values share a heap address, i.e. have parts that are
reference-identical. -/
def sharesAddr (x y : AVal) : Bool :=
  x.addrs.any (fun a => y.addrs.contains a)


/-! ## Definitions taken from the words of the claims

For the two normalizer claims that compare the code against the
specification's wording, the spec-side object builders are stated
separately, named after their origin. -/

/-- Structured in the claims' sense: an object or an array (null is a
scalar there). -/
def isStructured : JValue → Bool
  | .arr _ => true
  | .obj _ => true
  | _ => false

/-- Null test. -/
def isNull : JValue → Bool
  | .null => true
  | _ => false

/-- One fold step of the object builder as claim C4 words it: include a
binding exactly when the key is present (truthy) and the value is not a
structured (object/array) value - so a null value is included. -/
def claimedRowStep (acc : JFields) (r : NodeRow) : JFields :=
  match r.key with
  | some k => if keyTruthy r && !isStructured r.value then setField acc k r.value else acc
  | none => acc

/-- The object builder as claim C4 words it. -/
def claimedRowsObj (rows : List NodeRow) : JFields := rows.foldl claimedRowStep .nil

/-- One fold step of the object builder as the amended claim C4 words
it: include a binding exactly when the key is truthy and the value is
neither null nor structured (JavaScript typeof answers "object" for
null, so the code skips null values too). -/
def amendedRowStep (acc : JFields) (r : NodeRow) : JFields :=
  match r.key with
  | some k =>
    if keyTruthy r && !(isNull r.value || isStructured r.value) then setField acc k r.value
    else acc
  | none => acc

/-- The object builder as the amended claim C4 words it. -/
def amendedRowsObj (rows : List NodeRow) : JFields := rows.foldl amendedRowStep .nil

/-- Replacing an empty-string key by an absent key, the relation claim
C10 asserts the normalizer cannot observe. -/
def emptyKeyToNone (r : NodeRow) : NodeRow :=
  if r.key = some "" then ⟨none, r.value, r.type⟩ else r

/-- Whether a closing bracket immediately followed by an opening
bracket (the codec's separator) occurs somewhere in the text. -/
def hasBrk : List Char → Bool
  | [] => false
  | [_] => false
  | c :: c2 :: cs => (c = ']' && c2 = '[') || hasBrk (c2 :: cs)

/-- The domain on which the path codec round-trips, for the amended
claim C1: every string segment is free of double quotes (which the
parser strips wholesale) and of the bracket separator (which would make
the split cut the segment apart); numeric segments are unrestricted. -/
def pathOk (p : List Segment) : Bool :=
  p.all fun s =>
    match s with
    | .num _ => true
    | .str s => !(s.data.contains '"') && !hasBrk s.data

/-! ## Theorems -/

/-- Claim C2 counterexample: patching at the path string produced for
the root is NOT a no-op. The code's falsy-path guard only matches the
empty string; for the serialized root path the parser yields the single
string segment consisting of the dollar sign, which is then assigned as
an object key: on the empty document the result gains that key instead
of deep-equalling the input. -/
theorem updateJsonAtPath_root_not_noop :
    ¬ (updateJsonAtPath (.obj .nil) "$" (.num 1) = .ok (.obj .nil)) := by
  intro h
  rw [show updateJsonAtPath (.obj .nil) "$" (.num 1)
      = .ok (.obj (.cons "$" (.num 1) .nil)) from rfl] at h
  simp at h

/-- Amended claim C2: the no-op branch of updateJsonAtPath fires exactly
for the falsy (empty) path string, where the input document itself is
returned; at the path string for the root, the code instead assigns the
property named by a dollar sign on (a clone of) the document. -/
theorem updateJsonAtPath_empty_noop :
    (∀ (d v : JValue), updateJsonAtPath d "" v = .ok d)
    ∧ ∀ (fs : JFields) (v : JValue),
        updateJsonAtPath (.obj fs) "$" v = .ok (.obj (setField fs "$" v)) :=
  ⟨fun _ _ => rfl, fun _ _ => rfl⟩

/-- Claim C6: the patch replaces exactly the subtree at the addressed
location; whatever value (of whatever shape) sat at the final segment,
children included, is overwritten by the new value, with no validation
relating the two: on the document with one key containing one inner key,
the inner value old becomes v for every old and every v. -/
theorem updateJsonAtPath_replaces_subtree (old v : JValue) :
    updateJsonAtPath (.obj (.cons "a" (.obj (.cons "b" old .nil)) .nil)) "$[\"a\"][\"b\"]" v
      = .ok (.obj (.cons "a" (.obj (.cons "b" v .nil)) .nil)) := rfl

/-- Claim C7: when the intermediate segment is absent from the document
object, the walk does not fail but creates a fresh empty object there
before descending; the document with key x absent gains x bound to an
object holding y bound to v. -/
theorem updateJsonAtPath_vivifies_absent (fs : JFields)
    (h : lookupField fs "x" = none) (v : JValue) :
    updateJsonAtPath (.obj fs) "$[\"x\"][\"y\"]" v
      = .ok (.obj (setField fs "x" (.obj (.cons "y" v .nil)))) := by
  have h1 : updateJsonAtPath (.obj fs) "$[\"x\"][\"y\"]" v
      = Except.bind (Except.ok (lookupField fs "x")) (fun child? =>
          Except.bind
            (walkSet
              (match child? with
                | some c => if truthy c then c else .obj .nil
                | none => .obj .nil)
              (.str "y") [] v)
            (setSeg (JValue.obj fs) (.str "x"))) := rfl
  rw [h1, h]
  rfl

/-- Witness for claim C7 at the claim's own example: the empty document,
the two-segment path and the value five. -/
theorem updateJsonAtPath_vivifies_absent_witness :
    updateJsonAtPath (.obj .nil) "$[\"x\"][\"y\"]" (.num 5)
      = .ok (.obj (.cons "x" (.obj (.cons "y" (.num 5) .nil)) .nil)) :=
  updateJsonAtPath_vivifies_absent .nil rfl (.num 5)

/-- Claim C9: vivification is triggered by falsiness, not only absence:
an intermediate segment whose existing value is falsy (null, false,
zero or the empty string) is replaced by a fresh empty object before
descending. -/
theorem updateJsonAtPath_vivifies_falsy (w v : JValue) (h : truthy w = false) :
    updateJsonAtPath (.obj (.cons "a" w .nil)) "$[\"a\"][\"b\"]" v
      = .ok (.obj (.cons "a" (.obj (.cons "b" v .nil)) .nil)) := by
  have h1 : updateJsonAtPath (.obj (.cons "a" w .nil)) "$[\"a\"][\"b\"]" v
      = Except.bind (walkSet (if truthy w then w else .obj .nil) (.str "b") [] v)
          (setSeg (.obj (.cons "a" w .nil)) (.str "a")) := rfl
  rw [h1, h]
  rfl

/-- Witness for claim C9 at the claim's own example: existing value
zero, new value one. -/
theorem updateJsonAtPath_vivifies_falsy_witness :
    updateJsonAtPath (.obj (.cons "a" (.num 0) .nil)) "$[\"a\"][\"b\"]" (.num 1)
      = .ok (.obj (.cons "a" (.obj (.cons "b" (.num 1) .nil)) .nil)) :=
  updateJsonAtPath_vivifies_falsy (.num 0) (.num 1) rfl

/-- Claim C3, the failing execution: with the valid JSON edit buffer
"null" and a node selected at path ["a"], Save parses the buffer
successfully, patches the document, CALLS setContents with the patched
text - and only then throws inside the setState updater, because
Object.entries of null raises a TypeError; the catch fires the
invalid-JSON failure toast and the modal stays in Editing. So this Save
both reports a failure and has written to the document-text store, and
its failure is not a parse failure of the edit buffer - contradicting
the claim. For contrast, the truly malformed buffer of the claim's
failure-path example produces a failure with no write at all. -/
theorem handleSave_null_writes_then_fails :
    (handleSave "\x7b\"a\": 1\x7d" "null" ⟨some ⟨some "n", [], [.str "a"]⟩⟩).written
        = some "\x7b\n  \"a\": null\n\x7d"
    ∧ (handleSave "\x7b\"a\": 1\x7d" "null" ⟨some ⟨some "n", [], [.str "a"]⟩⟩).success = false
    ∧ (handleSave "\x7b\"a\": 1\x7d" "null" ⟨some ⟨some "n", [], [.str "a"]⟩⟩).isEditing = true
    ∧ jsonParse "null" = .ok .null
    ∧ (handleSave "\x7b\"a\": 1\x7d" "\x7binvalid" ⟨some ⟨some "n", [], [.str "a"]⟩⟩).written
        = none
    ∧ (handleSave "\x7b\"a\": 1\x7d" "\x7binvalid" ⟨some ⟨some "n", [], [.str "a"]⟩⟩).success
        = false :=
  ⟨rfl, rfl, rfl, rfl, rfl, rfl⟩

/-- Claim C4 counterexample: on the two keyed rows a mapped to null and
b mapped to one, the claim's builder (key present, value not an
object/array) keeps the null binding, but the code's typeof test also
answers "object" for null, so normalizeNodeData drops the a row and the
outputs differ. -/
theorem normalizeNodeData_null_row_dropped :
    normalizeNodeData [⟨some "a", .null, "null"⟩, ⟨some "b", .num 1, "number"⟩]
      ≠ jsonStringify2
          (.obj (claimedRowsObj [⟨some "a", .null, "null"⟩, ⟨some "b", .num 1, "number"⟩])) := by
  decide

/-- The typeof test of the source agrees with null-or-structured: the
single point where the code and claim C4 part ways is that null falls on
the "object" side of typeof. -/
theorem typeofObject_eq_isNull_or_isStructured :
    ∀ v : JValue, typeofObject v = (isNull v || isStructured v)
  | .null => rfl
  | .bool _ => rfl
  | .num _ => rfl
  | .str _ => rfl
  | .arr _ => rfl
  | .obj _ => rfl

/-- The code's reduce step is exactly the amended claim's step. -/
theorem rowStep_eq_amendedRowStep : rowStep = amendedRowStep := by
  funext acc r
  unfold rowStep amendedRowStep
  cases hk : r.key with
  | none => rfl
  | some k => rw [typeofObject_eq_isNull_or_isStructured r.value]

/-- The code's reduce builds exactly the amended claim's object. -/
theorem rowsReduce_eq_amendedRowsObj (rows : List NodeRow) :
    rowsReduce rows = amendedRowsObj rows := by
  unfold rowsReduce amendedRowsObj
  rw [rowStep_eq_amendedRowStep]

/-- Amended claim C4: on a list of two or more rows, or a single keyed
row, normalizeNodeData pretty-prints the object holding each row's
binding exactly when the key is truthy and the value is neither null
nor structured (object/array): JavaScript typeof answers "object" for
null, so null-valued rows are skipped along with structured ones. -/
theorem normalizeNodeData_skips_structured_and_null (rows : List NodeRow)
    (h : 2 ≤ rows.length ∨ ∃ r, rows = [r] ∧ keyTruthy r = true) :
    normalizeNodeData rows = jsonStringify2 (.obj (amendedRowsObj rows)) := by
  rw [← rowsReduce_eq_amendedRowsObj]
  match rows, h with
  | [], h =>
    rcases h with h | ⟨r, hr, _⟩
    · simp at h
    · simp at hr
  | [r], h =>
    rcases h with h | ⟨r2, hr, hk⟩
    · simp at h
    · have : r2 = r := by simpa using hr.symm
      subst this
      show (if !keyTruthy r2 then jsonStringify2 r2.value
        else jsonStringify2 (.obj (rowsReduce [r2]))) = _
      rw [hk]
      rfl
  | r1 :: r2 :: rest, _ => rfl

/-- Witness for the amended claim C4 at the claim's own example: a
scalar row and a structured row; the structured row is dropped and the
output is the pretty-printed single-binding object. -/
theorem normalizeNodeData_skips_structured_and_null_witness :
    normalizeNodeData [⟨some "a", .num 1, "number"⟩,
        ⟨some "b", .obj (.cons "nested" (.bool true) .nil), "object"⟩]
      = jsonStringify2 (.obj (amendedRowsObj [⟨some "a", .num 1, "number"⟩,
          ⟨some "b", .obj (.cons "nested" (.bool true) .nil), "object"⟩]))
    ∧ jsonStringify2 (.obj (amendedRowsObj [⟨some "a", .num 1, "number"⟩,
        ⟨some "b", .obj (.cons "nested" (.bool true) .nil), "object"⟩]))
      = "\x7b\n  \"a\": 1\n\x7d" :=
  ⟨normalizeNodeData_skips_structured_and_null _ (Or.inl (by simp)), rfl⟩

/-- A row whose key is the empty string is a no-op of the reduce step:
its key is falsy, exactly like an absent key. -/
theorem rowStep_empty_key (acc : JFields) (r : NodeRow) (hk : r.key = some "") :
    rowStep acc r = acc := by
  simp [rowStep, keyTruthy, hk]

/-- The reduce step cannot distinguish an empty-string key from an
absent one. -/
theorem rowStep_emptyKeyToNone (acc : JFields) (r : NodeRow) :
    rowStep acc (emptyKeyToNone r) = rowStep acc r := by
  by_cases hk : r.key = some ""
  · rw [show emptyKeyToNone r = ⟨none, r.value, r.type⟩ from by simp [emptyKeyToNone, hk]]
    rw [rowStep_empty_key acc r hk]
    rfl
  · rw [show emptyKeyToNone r = r from by simp [emptyKeyToNone, hk]]

/-- Dropping the empty-string-keyed rows does not change the reduce. -/
theorem foldl_rowStep_filter :
    ∀ (rows : List NodeRow) (acc : JFields),
      List.foldl rowStep acc (rows.filter (fun r => r.key ≠ some ""))
        = List.foldl rowStep acc rows
  | [], _ => rfl
  | r :: rest, acc => by
    by_cases hk : r.key = some ""
    · rw [show (r :: rest).filter (fun r => r.key ≠ some "")
          = rest.filter (fun r => r.key ≠ some "") from by simp [List.filter, hk]]
      rw [foldl_rowStep_filter rest acc, List.foldl_cons, rowStep_empty_key acc r hk]
    · rw [show (r :: rest).filter (fun r => r.key ≠ some "")
          = r :: rest.filter (fun r => r.key ≠ some "") from by simp [List.filter, hk]]
      rw [List.foldl_cons, List.foldl_cons, foldl_rowStep_filter rest (rowStep acc r)]

/-- The reduce of a mapped row list where empty keys became absent. -/
theorem rowsReduce_map_emptyKeyToNone (rows : List NodeRow) :
    rowsReduce (rows.map emptyKeyToNone) = rowsReduce rows := by
  unfold rowsReduce
  rw [List.foldl_map]
  have h : (fun (acc : JFields) (r : NodeRow) => rowStep acc (emptyKeyToNone r)) = rowStep := by
    funext acc r
    exact rowStep_emptyKeyToNone acc r
  rw [h]

/-- Claim C10: normalizeNodeData treats an empty-string key like an
absent key. A single row keyed by the empty string prints the bare
value (not a one-binding object); replacing every empty-string key by
an absent key never changes the output; and the reduced object of any
row list equals that of the list with its empty-string-keyed rows
removed. -/
theorem normalizeNodeData_empty_key_absent :
    (∀ (v : JValue) (t : String), normalizeNodeData [⟨some "", v, t⟩] = jsonStringify2 v)
    ∧ (∀ rows : List NodeRow,
        normalizeNodeData (rows.map emptyKeyToNone) = normalizeNodeData rows)
    ∧ ∀ rows : List NodeRow,
        rowsReduce (rows.filter (fun r => r.key ≠ some "")) = rowsReduce rows := by
  refine ⟨fun v t => rfl, ?_, fun rows => foldl_rowStep_filter rows .nil⟩
  intro rows
  match rows with
  | [] => rfl
  | [r] =>
    by_cases hk : r.key = some ""
    · rw [show [r].map emptyKeyToNone = [(⟨none, r.value, r.type⟩ : NodeRow)] from by
        simp [emptyKeyToNone, hk]]
      show jsonStringify2 r.value
          = if !keyTruthy r then jsonStringify2 r.value else jsonStringify2 (.obj (rowsReduce [r]))
      rw [show keyTruthy r = false from by simp [keyTruthy, hk]]
      rfl
    · rw [show [r].map emptyKeyToNone = [r] from by simp [emptyKeyToNone, hk]]
  | r1 :: r2 :: rest =>
    show jsonStringify2 (.obj (rowsReduce ((r1 :: r2 :: rest).map emptyKeyToNone)))
        = jsonStringify2 (.obj (rowsReduce (r1 :: r2 :: rest)))
    rw [rowsReduce_map_emptyKeyToNone]

/-- Claim C8: on every successful Save with a node selected, the graph
store afterwards holds the selected node with its row list rebuilt from
the parsed value's top-level entries: one row per entry, in entry
order, with the value kept whether scalar or structured and the type
tag reset to the default tag (the node's path is kept, and its id is
coerced to a string). -/
theorem handleSave_rebuilds_rows (fullJson editedContent : String) (st : GraphState)
    (nd : GraphNode) (P : JValue) (E : List (String × JValue))
    (hnd : st.selectedNode = some nd)
    (hP : jsonParse editedContent = .ok P)
    (hE : jsEntries P = .ok E)
    (hs : (handleSave fullJson editedContent st).success = true) :
    (handleSave fullJson editedContent st).graph.selectedNode
      = some ⟨some (nd.id.getD ""), E.map (fun kv => ⟨some kv.1, kv.2, "default"⟩), nd.path⟩ := by
  have hupd : saveUpdater st P
      = .ok ⟨some ⟨some (nd.id.getD ""),
          E.map (fun kv => ⟨some kv.1, kv.2, "default"⟩), nd.path⟩⟩ := by
    unfold saveUpdater
    rw [hnd]
    show Except.bind (jsEntries P) _ = _
    rw [hE]
    rfl
  unfold handleSave at hs ⊢
  rw [hP] at hs ⊢
  simp only [] at hs ⊢
  cases hdoc : jsonParse fullJson with
  | error e => rw [hdoc] at hs; simp at hs
  | ok doc =>
    rw [hdoc] at hs
    simp only [] at hs ⊢
    cases hup : updateJsonAtPath doc (jsonPathToString (st.selectedNode.map (·.path))) P with
    | error e => rw [hup] at hs; simp at hs
    | ok u =>
      simp only []
      rw [hupd]

/-- Witness for claim C8: saving the buffer holding an object with one
structured-valued entry rebuilds the selected node's rows to exactly
that one default-tagged row, the structured value kept. -/
theorem handleSave_rebuilds_rows_witness :
    (handleSave "\x7b\"a\": 1\x7d" "\x7b\"x\": \x7b\"y\": 2\x7d\x7d"
        ⟨some ⟨some "n", [], [.str "a"]⟩⟩).graph.selectedNode
      = some ⟨some "n", [⟨some "x", .obj (.cons "y" (.num 2) .nil), "default"⟩], [.str "a"]⟩ :=
  handleSave_rebuilds_rows "\x7b\"a\": 1\x7d" "\x7b\"x\": \x7b\"y\": 2\x7d\x7d"
    ⟨some ⟨some "n", [], [.str "a"]⟩⟩ ⟨some "n", [], [.str "a"]⟩
    (.obj (.cons "x" (.obj (.cons "y" (.num 2) .nil)) .nil))
    [("x", .obj (.cons "y" (.num 2) .nil))] rfl rfl rfl rfl

/-- A digit character is a digit. -/
theorem digitChar_isDigit (d : Nat) (h : d < 10) : (digitChar d).isDigit = true := by
  interval_cases d <;> decide

/-- Code point of a digit character. -/
theorem digitChar_toNat (d : Nat) (h : d < 10) : (digitChar d).toNat = 48 + d := by
  interval_cases d <;> decide

/-- The decimal rendering consists of digits (given enough fuel). -/
theorem natReprAux_digits :
    ∀ (fuel n : Nat), n < fuel → ∀ c ∈ natReprAux fuel n, c.isDigit = true
  | 0, _, h, _, _ => absurd h (Nat.not_lt_zero _)
  | fuel + 1, n, _, c, hc => by
    rw [natReprAux] at hc
    by_cases h10 : n < 10
    · rw [if_pos h10] at hc
      simp at hc
      subst hc
      exact digitChar_isDigit n h10
    · rw [if_neg h10] at hc
      rcases List.mem_append.mp hc with hc | hc
      · have hdiv : n / 10 < n := Nat.div_lt_self (by omega) (by omega)
        exact natReprAux_digits fuel (n / 10) (by omega) c hc
      · simp at hc
        subst hc
        exact digitChar_isDigit (n % 10) (Nat.mod_lt n (by omega))

/-- The decimal rendering is never empty (given enough fuel). -/
theorem natReprAux_ne_nil (fuel n : Nat) (h : n < fuel) : natReprAux fuel n ≠ [] := by
  match fuel with
  | 0 => exact absurd h (Nat.not_lt_zero _)
  | fuel + 1 =>
    rw [natReprAux]
    by_cases h10 : n < 10
    · rw [if_pos h10]
      simp
    · rw [if_neg h10]
      simp

/-- The value of the decimal rendering is the rendered number (given
enough fuel). -/
theorem digitsVal_natReprAux :
    ∀ (fuel n : Nat), n < fuel → digitsVal (natReprAux fuel n) = n
  | 0, _, h => absurd h (Nat.not_lt_zero _)
  | fuel + 1, n, _ => by
    rw [natReprAux]
    by_cases h10 : n < 10
    · rw [if_pos h10]
      show 0 * 10 + ((digitChar n).toNat - 48) = n
      rw [digitChar_toNat n h10]
      omega
    · rw [if_neg h10]
      unfold digitsVal
      rw [List.foldl_append]
      show (digitsVal (natReprAux fuel (n / 10))) * 10 + ((digitChar (n % 10)).toNat - 48) = n
      have hdiv : n / 10 < n := Nat.div_lt_self (by omega) (by omega)
      rw [digitsVal_natReprAux fuel (n / 10) (by omega),
        digitChar_toNat (n % 10) (Nat.mod_lt n (by omega))]
      omega

/-- The parser's Number test converts a serialized numeric segment back
to its number. -/
theorem jsNum?_natRepr (n : Nat) : jsNum? (natRepr n) = some n := by
  unfold jsNum? natRepr
  rw [if_neg (natReprAux_ne_nil (n + 1) n (Nat.lt_succ_self n))]
  rw [if_pos (List.all_eq_true.mpr
    (fun c hc => natReprAux_digits (n + 1) n (Nat.lt_succ_self n) c hc))]
  rw [digitsVal_natReprAux (n + 1) n (Nat.lt_succ_self n)]

/-- The parser's Number test rejects every quoted segment: a quote is
not a digit. -/
theorem jsNum?_quoted (l : List Char) : jsNum? ('"' :: l ++ ['"']) = none := by
  unfold jsNum?
  rw [if_neg (by simp)]
  rw [if_neg ?_]
  intro hall
  have := List.all_eq_true.mp hall '"' (by simp)
  simp at this

/-- Stripping quotes from a quoted quote-free text returns the text. -/
theorem removeQuotes_quoted (l : List Char) (h : l.contains '"' = false) :
    removeQuotes ('"' :: l ++ ['"']) = l := by
  have hmem : '"' ∉ l := by
    intro hm
    simp [List.contains_eq_any_beq] at h
    exact h hm
  unfold removeQuotes
  simp only [List.filter_cons, List.filter_append]
  simp only [ne_eq, decide_not, decide_True, Bool.not_true, Bool.false_eq_true, if_false]
  have hself : List.filter (fun c => !decide (c = '"')) l = l := by
    apply List.filter_eq_self.mpr
    intro c hc
    simp
    intro he
    subst he
    exact hmem hc
  rw [hself]
  simp

/-- One piece round-trips: interpreting the rendering of a segment
whose string form is quote-free gives the segment back. -/
theorem pieceToSeg_segRepr :
    ∀ seg : Segment,
      (∀ s, seg = .str s → s.data.contains '"' = false) →
      pieceToSeg (segRepr seg) = seg
  | .num n, _ => by
    unfold pieceToSeg segRepr
    rw [jsNum?_natRepr n]
  | .str s, h => by
    unfold pieceToSeg segRepr
    rw [jsNum?_quoted s.data]
    rw [removeQuotes_quoted s.data (h s rfl)]

/-- A list of digits never contains the bracket separator. -/
theorem hasBrk_digits :
    ∀ cs : List Char, (∀ c ∈ cs, c.isDigit = true) → hasBrk cs = false
  | [], _ => rfl
  | [_], _ => rfl
  | c :: c2 :: cs, h => by
    have hc : c.isDigit = true := h c (by simp)
    have hne : (c = ']') = False := by
      simp only [eq_iff_iff, iff_false]
      intro he
      subst he
      simp at hc
    show ((c = ']' && c2 = '[') || hasBrk (c2 :: cs)) = false
    rw [hasBrk_digits (c2 :: cs) (fun d hd => h d (by simp [hd]))]
    simp [hne]

/-- Prepending a character other than a closing bracket cannot create a
separator occurrence. -/
theorem hasBrk_cons_ne (c : Char) (l : List Char) (hc : c ≠ ']') :
    hasBrk (c :: l) = hasBrk l := by
  match l with
  | [] => rfl
  | c2 :: cs =>
    show ((c = ']' && c2 = '[') || hasBrk (c2 :: cs)) = hasBrk (c2 :: cs)
    simp [hc]

/-- Appending a character other than an opening bracket cannot create a
separator occurrence. -/
theorem hasBrk_append_single :
    ∀ (l : List Char) (c : Char), hasBrk l = false → c ≠ '[' → hasBrk (l ++ [c]) = false
  | [], _, _, _ => rfl
  | [a], c, _, hc => by
    show ((a = ']' && c = '[') || hasBrk [c]) = false
    simp [hc, hasBrk]
  | a :: b :: l, c, h, hc => by
    have h2 : (a = ']' && b = '[') = false ∧ hasBrk (b :: l) = false := by
      have := h
      rw [show hasBrk (a :: b :: l) = ((a = ']' && b = '[') || hasBrk (b :: l)) from rfl] at this
      exact Bool.or_eq_false_iff.mp this
    show ((a = ']' && b = '[') || hasBrk (b :: (l ++ [c]))) = false
    rw [show (b :: (l ++ [c])) = ((b :: l) ++ [c]) from rfl,
      hasBrk_append_single (b :: l) c h2.2 hc, h2.1]
    rfl

/-- The rendering of a segment in the round-trip domain is free of the
bracket separator: digits contain no brackets, and a quote-free,
separator-free string stays separator-free once quoted. -/
theorem hasBrk_segRepr :
    ∀ seg : Segment,
      (∀ s, seg = .str s → hasBrk s.data = false) →
      hasBrk (segRepr seg) = false
  | .num n, _ => by
    unfold segRepr
    exact hasBrk_digits (natRepr n)
      (fun c hc => natReprAux_digits (n + 1) n (Nat.lt_succ_self n) c hc)
  | .str s, h => by
    show hasBrk ('"' :: (s.data ++ ['"'])) = false
    rw [hasBrk_cons_ne '"' (s.data ++ ['"']) (by decide)]
    exact hasBrk_append_single s.data '"' (h s rfl) (by decide)

/-- Splitting a separator-free text yields that single piece, as the
JavaScript split does when the separator is absent. -/
theorem splitBrk_noBrk : ∀ cs : List Char, hasBrk cs = false → splitBrk cs = [cs]
  | [], _ => rfl
  | [_], _ => rfl
  | a :: b :: cs, h => by
    have h2 : (a = ']' && b = '[') = false ∧ hasBrk (b :: cs) = false := by
      have hh := h
      rw [show hasBrk (a :: b :: cs) = ((a = ']' && b = '[') || hasBrk (b :: cs)) from rfl] at hh
      exact Bool.or_eq_false_iff.mp hh
    have hne : ¬(a = ']' ∧ b = '[') := by
      rintro ⟨ha, hb⟩
      subst ha
      subst hb
      simp at h2
    rw [show splitBrk (a :: b :: cs)
        = (if a = ']' ∧ b = '[' then [] :: splitBrk cs
           else
             match splitBrk (b :: cs) with
             | [] => [[a]]
             | h :: t => (a :: h) :: t) from rfl]
    rw [if_neg hne, splitBrk_noBrk (b :: cs) h2.2]

/-- Splitting a separator-free piece followed by a separator cuts
exactly at that separator. -/
theorem splitBrk_sep :
    ∀ (r rest : List Char), hasBrk r = false →
      splitBrk (r ++ ']' :: '[' :: rest) = r :: splitBrk rest
  | [], rest, _ => by
    show splitBrk (']' :: '[' :: rest) = [] :: splitBrk rest
    rw [show splitBrk (']' :: '[' :: rest)
        = (if (']' : Char) = ']' ∧ ('[' : Char) = '[' then [] :: splitBrk rest
           else
             match splitBrk ('[' :: rest) with
             | [] => [[(']' : Char)]]
             | h :: t => ((']' : Char) :: h) :: t) from rfl]
    rw [if_pos ⟨rfl, rfl⟩]
  | [a], rest, _ => by
    show splitBrk (a :: ']' :: '[' :: rest) = [a] :: splitBrk rest
    have h0 : splitBrk (']' :: '[' :: rest) = [] :: splitBrk rest := splitBrk_sep [] rest rfl
    rw [show splitBrk (a :: ']' :: '[' :: rest)
        = (if a = ']' ∧ (']' : Char) = '[' then [] :: splitBrk ('[' :: rest)
           else
             match splitBrk (']' :: '[' :: rest) with
             | [] => [[a]]
             | h :: t => (a :: h) :: t) from rfl]
    rw [if_neg (by rintro ⟨_, hx⟩; exact absurd hx (by decide)), h0]
  | a :: b :: r, rest, h => by
    have h2 : (a = ']' && b = '[') = false ∧ hasBrk (b :: r) = false := by
      have hh := h
      rw [show hasBrk (a :: b :: r) = ((a = ']' && b = '[') || hasBrk (b :: r)) from rfl] at hh
      exact Bool.or_eq_false_iff.mp hh
    have hne : ¬(a = ']' ∧ b = '[') := by
      rintro ⟨ha, hb⟩
      subst ha
      subst hb
      simp at h2
    have IH : splitBrk ((b :: r) ++ ']' :: '[' :: rest) = (b :: r) :: splitBrk rest :=
      splitBrk_sep (b :: r) rest h2.2
    show splitBrk (a :: b :: (r ++ ']' :: '[' :: rest)) = (a :: b :: r) :: splitBrk rest
    rw [show splitBrk (a :: b :: (r ++ ']' :: '[' :: rest))
        = (if a = ']' ∧ b = '[' then [] :: splitBrk (r ++ ']' :: '[' :: rest)
           else
             match splitBrk (b :: (r ++ ']' :: '[' :: rest)) with
             | [] => [[a]]
             | h :: t => (a :: h) :: t) from rfl]
    rw [if_neg hne, show (b :: (r ++ ']' :: '[' :: rest))
        = ((b :: r) ++ ']' :: '[' :: rest) from rfl, IH]

/-- Splitting the join of separator-free pieces recovers the pieces. -/
theorem splitBrk_joinBrk :
    ∀ (r : List Char) (rs : List (List Char)),
      hasBrk r = false → (∀ x ∈ rs, hasBrk x = false) →
      splitBrk (joinBrk (r :: rs)) = r :: rs
  | r, [], h, _ => by
    show splitBrk (joinBrk [r]) = [r]
    rw [show joinBrk [r] = r from rfl]
    exact splitBrk_noBrk r h
  | r, r2 :: rs, h, hall => by
    show splitBrk (r ++ ']' :: '[' :: joinBrk (r2 :: rs)) = r :: r2 :: rs
    rw [splitBrk_sep r (joinBrk (r2 :: rs)) h,
      splitBrk_joinBrk r2 rs (hall r2 (by simp)) (fun x hx => hall x (by simp [hx]))]

/-- Interpreting the renderings of segments in the round-trip domain
recovers the segments. -/
theorem map_pieceToSeg_segRepr :
    ∀ l : List Segment,
      (∀ seg ∈ l, ∀ t, seg = Segment.str t → t.data.contains '"' = false) →
      (l.map segRepr).map pieceToSeg = l
  | [], _ => rfl
  | seg :: l, h => by
    show pieceToSeg (segRepr seg) :: ((l.map segRepr).map pieceToSeg) = seg :: l
    rw [pieceToSeg_segRepr seg (fun t ht => h seg (by simp) t ht),
      map_pieceToSeg_segRepr l (fun s hs t ht => h s (by simp [hs]) t ht)]

/-- Amended claim C1: the path codec round-trips on every nonempty
structural path whose string segments contain neither a double quote
nor the two-character bracket separator (and whose numeric segments are
non-negative integers, as the Segment type requires): parsing the
serialization of such a path inside updateJsonAtPath yields the path
again. Outside this domain the round-trip genuinely fails - see the
counterexample for the empty path; a quote inside a segment is
destroyed by the parser's global quote-stripping, and a separator inside
a segment makes the split cut the segment apart. -/
theorem parsePath_jsonPathToString (p : List Segment) (h1 : p ≠ [])
    (h2 : pathOk p = true) :
    parsePath (jsonPathToString (some p)) = p := by
  match p, h1 with
  | s :: ss, _ =>
    have hall : ∀ seg ∈ s :: ss, ∀ t, seg = Segment.str t →
        t.data.contains '"' = false ∧ hasBrk t.data = false := by
      intro seg hseg t ht
      subst ht
      have := List.all_eq_true.mp h2 _ hseg
      simpa using this
    have hbrk : ∀ x ∈ (s :: ss).map segRepr, hasBrk x = false := by
      intro x hx
      rcases List.mem_map.mp hx with ⟨seg, hseg, rfl⟩
      exact hasBrk_segRepr seg (fun t ht => (hall seg hseg t ht).2)
    show (splitBrk (stripTrail (stripDollar
        (jsonPathToString (some (s :: ss))).data))).map pieceToSeg = s :: ss
    rw [show stripDollar (jsonPathToString (some (s :: ss))).data
        = joinBrk ((s :: ss).map segRepr) ++ [']'] from rfl]
    rw [show stripTrail (joinBrk ((s :: ss).map segRepr) ++ [']'])
        = joinBrk ((s :: ss).map segRepr) from by
      unfold stripTrail
      rw [List.getLast?_concat, if_pos rfl, List.dropLast_concat]]
    rw [show (s :: ss).map segRepr = segRepr s :: ss.map segRepr from rfl]
    rw [splitBrk_joinBrk (segRepr s) (ss.map segRepr)
      (hasBrk_segRepr s (fun t ht => (hall s (by simp) t ht).2))
      (fun x hx => hbrk x (by simp [hx]))]
    rw [show (segRepr s :: ss.map segRepr) = (s :: ss).map segRepr from rfl]
    exact map_pieceToSeg_segRepr (s :: ss) (fun seg hseg t ht => (hall seg hseg t ht).1)

/-- Witness for the amended claim C1 on a two-segment path with one
string key and one index. -/
theorem parsePath_jsonPathToString_witness :
    parsePath (jsonPathToString (some [Segment.str "a", Segment.num 0]))
      = [Segment.str "a", Segment.num 0] :=
  parsePath_jsonPathToString [Segment.str "a", Segment.num 0] (by simp) (by decide)

/-- Claim C1 counterexample: the round-trip law fails on the claim's
full domain. The empty path (the root) serializes to the dollar sign,
which parses back to a one-segment path holding the dollar sign as a
string key; and a string segment containing a double quote loses it to
the parser's global quote-stripping. -/
theorem parsePath_jsonPathToString_not_inverse :
    parsePath (jsonPathToString (some ([] : List Segment))) ≠ []
    ∧ parsePath (jsonPathToString (some [Segment.str "a\"b"])) ≠ [Segment.str "a\"b"] := by
  constructor
  · decide
  · decide

mutual
/-- The clone's allocation counter never decreases. -/
theorem cloneVal_counter_le : ∀ (f : Nat) (v : AVal), f ≤ (AVal.clone f v).1
  | f, .null => Nat.le_refl f
  | f, .bool _ => Nat.le_refl f
  | f, .num _ => Nat.le_refl f
  | f, .str _ => Nat.le_refl f
  | f, .arr _ xs => by
    have h := cloneItems_counter_le (f + 1) xs
    show f ≤ (AItems.clone (f + 1) xs).1
    omega
  | f, .obj _ fs => by
    have h := cloneFields_counter_le (f + 1) fs
    show f ≤ (AFields.clone (f + 1) fs).1
    omega

/-- The clone's allocation counter never decreases (item chains). -/
theorem cloneItems_counter_le : ∀ (f : Nat) (xs : AItems), f ≤ (AItems.clone f xs).1
  | f, .nil => Nat.le_refl f
  | f, .cons hd t => by
    have h1 := cloneVal_counter_le f hd
    have h2 := cloneItems_counter_le (AVal.clone f hd).1 t
    show f ≤ (AItems.clone (AVal.clone f hd).1 t).1
    omega

/-- The clone's allocation counter never decreases (field chains). -/
theorem cloneFields_counter_le : ∀ (f : Nat) (fs : AFields), f ≤ (AFields.clone f fs).1
  | f, .nil => Nat.le_refl f
  | f, .cons _ v t => by
    have h1 := cloneVal_counter_le f v
    have h2 := cloneFields_counter_le (AVal.clone f v).1 t
    show f ≤ (AFields.clone (AVal.clone f v).1 t).1
    omega
end

mutual
/-- Every address of a clone is fresh: at least the starting counter. -/
theorem cloneVal_addrs_ge :
    ∀ (f : Nat) (v : AVal) (a : Nat), a ∈ ((AVal.clone f v).2).addrs → f ≤ a
  | _, .null, _, ha => absurd ha (List.not_mem_nil _)
  | _, .bool _, _, ha => absurd ha (List.not_mem_nil _)
  | _, .num _, _, ha => absurd ha (List.not_mem_nil _)
  | _, .str _, _, ha => absurd ha (List.not_mem_nil _)
  | f, .arr _ xs, a, ha => by
    have ha2 : a ∈ f :: ((AItems.clone (f + 1) xs).2).addrs := ha
    rcases List.mem_cons.mp ha2 with rfl | hmem
    · exact Nat.le_refl a
    · have := cloneItems_addrs_ge (f + 1) xs a hmem
      omega
  | f, .obj _ fs, a, ha => by
    have ha2 : a ∈ f :: ((AFields.clone (f + 1) fs).2).addrs := ha
    rcases List.mem_cons.mp ha2 with rfl | hmem
    · exact Nat.le_refl a
    · have := cloneFields_addrs_ge (f + 1) fs a hmem
      omega

/-- Every address of a cloned item chain is fresh. -/
theorem cloneItems_addrs_ge :
    ∀ (f : Nat) (xs : AItems) (a : Nat), a ∈ ((AItems.clone f xs).2).addrs → f ≤ a
  | _, .nil, _, ha => absurd ha (List.not_mem_nil _)
  | f, .cons hd t, a, ha => by
    have ha2 : a ∈ ((AVal.clone f hd).2).addrs
        ++ ((AItems.clone (AVal.clone f hd).1 t).2).addrs := ha
    rcases List.mem_append.mp ha2 with hmem | hmem
    · exact cloneVal_addrs_ge f hd a hmem
    · have h1 := cloneVal_counter_le f hd
      have h2 := cloneItems_addrs_ge (AVal.clone f hd).1 t a hmem
      omega

/-- Every address of a cloned field chain is fresh. -/
theorem cloneFields_addrs_ge :
    ∀ (f : Nat) (fs : AFields) (a : Nat), a ∈ ((AFields.clone f fs).2).addrs → f ≤ a
  | _, .nil, _, ha => absurd ha (List.not_mem_nil _)
  | f, .cons _ v t, a, ha => by
    have ha2 : a ∈ ((AVal.clone f v).2).addrs
        ++ ((AFields.clone (AVal.clone f v).1 t).2).addrs := ha
    rcases List.mem_append.mp ha2 with hmem | hmem
    · exact cloneVal_addrs_ge f v a hmem
    · have h1 := cloneVal_counter_le f v
      have h2 := cloneFields_addrs_ge (AVal.clone f v).1 t a hmem
      omega
end

/-- A field looked up in an object only holds addresses of the object. -/
theorem lookupFieldA_addrs :
    ∀ (fs : AFields) (k : String) (v : AVal), lookupFieldA fs k = some v →
      ∀ a ∈ v.addrs, a ∈ fs.addrs
  | .nil, _, _, h => by simp [lookupFieldA] at h
  | .cons k0 v0 rest, k, v, h => by
    unfold lookupFieldA at h
    by_cases he : k0 = k
    · rw [if_pos he] at h
      have hv : v0 = v := Option.some.inj h
      intro a ha
      show a ∈ v0.addrs ++ rest.addrs
      exact List.mem_append.mpr (Or.inl (by rw [hv]; exact ha))
    · rw [if_neg he] at h
      intro a ha
      show a ∈ v0.addrs ++ rest.addrs
      exact List.mem_append.mpr (Or.inr (lookupFieldA_addrs rest k v h a ha))

/-- An item read from an array only holds addresses of the array. -/
theorem itemsGetA?_addrs :
    ∀ (xs : AItems) (n : Nat) (v : AVal), itemsGetA? xs n = some v →
      ∀ a ∈ v.addrs, a ∈ xs.addrs
  | .nil, _, _, h => by simp [itemsGetA?] at h
  | .cons hd t, 0, v, h => by
    have hv : hd = v := Option.some.inj h
    intro a ha
    show a ∈ hd.addrs ++ t.addrs
    exact List.mem_append.mpr (Or.inl (by rw [hv]; exact ha))
  | .cons hd t, n + 1, v, h => by
    intro a ha
    show a ∈ hd.addrs ++ t.addrs
    exact List.mem_append.mpr (Or.inr (itemsGetA?_addrs t n v h a ha))

/-- The property read of the patch loop only returns addresses of the
container it reads from. -/
theorem getSegA_addrs :
    ∀ (cur : AVal) (seg : Segment) (c : AVal), getSegA cur seg = .ok (some c) →
      ∀ a ∈ c.addrs, a ∈ cur.addrs
  | .null, _, _, h => by simp [getSegA] at h
  | .bool _, _, _, h => by simp [getSegA] at h
  | .num _, _, _, h => by simp [getSegA] at h
  | .str _, _, _, h => by simp [getSegA] at h
  | .arr b xs, .num n, c, h => by
    have h2 : itemsGetA? xs n = some c := by
      have h3 := h
      unfold getSegA at h3
      exact Except.ok.inj h3
    intro a ha
    show a ∈ b :: xs.addrs
    exact List.mem_cons.mpr (Or.inr (itemsGetA?_addrs xs n c h2 a ha))
  | .arr _ _, .str _, c, h => by simp [getSegA] at h
  | .obj b fs, .str k, c, h => by
    have h2 : lookupFieldA fs k = some c := by
      have h3 := h
      unfold getSegA at h3
      exact Except.ok.inj h3
    intro a ha
    show a ∈ b :: fs.addrs
    exact List.mem_cons.mpr (Or.inr (lookupFieldA_addrs fs k c h2 a ha))
  | .obj b fs, .num n, c, h => by
    have h2 : lookupFieldA fs (String.mk (natRepr n)) = some c := by
      have h3 := h
      unfold getSegA at h3
      exact Except.ok.inj h3
    intro a ha
    show a ∈ b :: fs.addrs
    exact List.mem_cons.mpr (Or.inr (lookupFieldA_addrs fs (String.mk (natRepr n)) c h2 a ha))

/-- Field assignment only combines addresses of the two sides. -/
theorem setFieldA_addrs :
    ∀ (fs : AFields) (k : String) (v : AVal) (a : Nat),
      a ∈ (setFieldA fs k v).addrs → a ∈ fs.addrs ∨ a ∈ v.addrs
  | .nil, _, v, a, ha => by
    have ha2 : a ∈ v.addrs ++ ([] : List Nat) := ha
    rcases List.mem_append.mp ha2 with hm | hm
    · exact Or.inr hm
    · exact absurd hm (List.not_mem_nil a)
  | .cons k0 v0 rest, k, v, a, ha => by
    by_cases he : k0 = k
    · have ha2 : a ∈ v.addrs ++ rest.addrs := by
        have := ha
        unfold setFieldA at this
        rw [if_pos he] at this
        exact this
      rcases List.mem_append.mp ha2 with hm | hm
      · exact Or.inr hm
      · exact Or.inl (List.mem_append.mpr (Or.inr hm))
    · have ha2 : a ∈ v0.addrs ++ (setFieldA rest k v).addrs := by
        have := ha
        unfold setFieldA at this
        rw [if_neg he] at this
        exact this
      rcases List.mem_append.mp ha2 with hm | hm
      · exact Or.inl (List.mem_append.mpr (Or.inl hm))
      · rcases setFieldA_addrs rest k v a hm with hm2 | hm2
        · exact Or.inl (List.mem_append.mpr (Or.inr hm2))
        · exact Or.inr hm2

/-- Item assignment only combines addresses of the two sides (the
padding holes hold none). -/
theorem setItemA_addrs :
    ∀ (xs : AItems) (n : Nat) (v : AVal) (a : Nat),
      a ∈ (setItemA xs n v).addrs → a ∈ xs.addrs ∨ a ∈ v.addrs
  | .nil, 0, v, a, ha => by
    have ha2 : a ∈ v.addrs ++ ([] : List Nat) := ha
    rcases List.mem_append.mp ha2 with hm | hm
    · exact Or.inr hm
    · exact absurd hm (List.not_mem_nil a)
  | .nil, n + 1, v, a, ha => by
    have ha2 : a ∈ ([] : List Nat) ++ (setItemA .nil n v).addrs := ha
    rcases List.mem_append.mp ha2 with hm | hm
    · exact absurd hm (List.not_mem_nil a)
    · rcases setItemA_addrs .nil n v a hm with hm2 | hm2
      · exact Or.inl hm2
      · exact Or.inr hm2
  | .cons hd t, 0, v, a, ha => by
    have ha2 : a ∈ v.addrs ++ t.addrs := ha
    rcases List.mem_append.mp ha2 with hm | hm
    · exact Or.inr hm
    · exact Or.inl (List.mem_append.mpr (Or.inr hm))
  | .cons hd t, n + 1, v, a, ha => by
    have ha2 : a ∈ hd.addrs ++ (setItemA t n v).addrs := ha
    rcases List.mem_append.mp ha2 with hm | hm
    · exact Or.inl (List.mem_append.mpr (Or.inl hm))
    · rcases setItemA_addrs t n v a hm with hm2 | hm2
      · exact Or.inl (List.mem_append.mpr (Or.inr hm2))
      · exact Or.inr hm2

/-- The property write of the patch loop only combines addresses of the
container and the written value. -/
theorem setSegA_addrs :
    ∀ (cur : AVal) (seg : Segment) (v out : AVal), setSegA cur seg v = .ok out →
      ∀ a ∈ out.addrs, a ∈ cur.addrs ∨ a ∈ v.addrs
  | .obj b fs, .str k, v, out, h => by
    have hout : out = .obj b (setFieldA fs k v) := by
      have h3 := h
      unfold setSegA at h3
      exact (Except.ok.inj h3).symm
    subst hout
    intro a ha
    rcases List.mem_cons.mp ha with rfl | hm
    · exact Or.inl (List.mem_cons.mpr (Or.inl rfl))
    · rcases setFieldA_addrs fs k v a hm with hm2 | hm2
      · exact Or.inl (List.mem_cons.mpr (Or.inr hm2))
      · exact Or.inr hm2
  | .obj b fs, .num n, v, out, h => by
    have hout : out = .obj b (setFieldA fs (String.mk (natRepr n)) v) := by
      have h3 := h
      unfold setSegA at h3
      exact (Except.ok.inj h3).symm
    subst hout
    intro a ha
    rcases List.mem_cons.mp ha with rfl | hm
    · exact Or.inl (List.mem_cons.mpr (Or.inl rfl))
    · rcases setFieldA_addrs fs (String.mk (natRepr n)) v a hm with hm2 | hm2
      · exact Or.inl (List.mem_cons.mpr (Or.inr hm2))
      · exact Or.inr hm2
  | .arr b xs, .num n, v, out, h => by
    have hout : out = .arr b (setItemA xs n v) := by
      have h3 := h
      unfold setSegA at h3
      exact (Except.ok.inj h3).symm
    subst hout
    intro a ha
    rcases List.mem_cons.mp ha with rfl | hm
    · exact Or.inl (List.mem_cons.mpr (Or.inl rfl))
    · rcases setItemA_addrs xs n v a hm with hm2 | hm2
      · exact Or.inl (List.mem_cons.mpr (Or.inr hm2))
      · exact Or.inr hm2
  | .arr b xs, .str _, v, out, h => by
    have hout : out = .arr b xs := by
      have h3 := h
      unfold setSegA at h3
      exact (Except.ok.inj h3).symm
    subst hout
    intro a ha
    exact Or.inl ha
  | .null, _, _, _, h => by simp [setSegA] at h
  | .bool _, _, _, _, h => by simp [setSegA] at h
  | .num _, _, _, _, h => by simp [setSegA] at h
  | .str _, _, _, _, h => by simp [setSegA] at h

/-- Every address of the value produced by the patch walk is an address
of the walked container, a fresh allocation (at or above the starting
counter), or an address of the inserted new value. -/
theorem walkSetA_addrs :
    ∀ (segs : List Segment) (f : Nat) (cur : AVal) (s : Segment) (v : AVal)
      (f2 : Nat) (out : AVal),
      walkSetA f cur s segs v = .ok (f2, out) →
      ∀ a ∈ out.addrs, a ∈ cur.addrs ∨ f ≤ a ∨ a ∈ v.addrs
  | [], f, cur, s, v, f2, out, h => by
    unfold walkSetA at h
    cases hset : setSegA cur s v with
    | error e => rw [hset] at h; simp at h
    | ok o =>
      rw [hset] at h
      simp only [Except.ok.injEq, Prod.mk.injEq] at h
      intro a ha
      rcases setSegA_addrs cur s v o hset a (by rw [h.2]; exact ha) with hm | hm
      · exact Or.inl hm
      · exact Or.inr (Or.inr hm)
  | nx :: rest, f, cur, s, v, f2, out, h => by
    unfold walkSetA at h
    cases hget : getSegA cur s with
    | error e => rw [hget] at h; simp at h
    | ok child? =>
      rw [hget] at h
      simp only [] at h
      cases child? with
      | none =>
        simp only [] at h
        cases hwalk : walkSetA (f + 1) (.obj f .nil) nx rest v with
        | error e => rw [hwalk] at h; simp at h
        | ok p =>
          obtain ⟨fmid, c2⟩ := p
          rw [hwalk] at h
          simp only [] at h
          cases hset : setSegA cur s c2 with
          | error e => rw [hset] at h; simp at h
          | ok o =>
            rw [hset] at h
            simp only [Except.ok.injEq, Prod.mk.injEq] at h
            intro a ha
            rcases setSegA_addrs cur s c2 o hset a (by rw [h.2]; exact ha) with hm | hm
            · exact Or.inl hm
            · rcases walkSetA_addrs rest (f + 1) (.obj f .nil) nx v fmid c2 hwalk a hm
                with h1 | h1 | h1
              · have haf : a = f := by
                  simpa [AVal.addrs, AFields.addrs] using h1
                exact Or.inr (Or.inl (by omega))
              · exact Or.inr (Or.inl (by omega))
              · exact Or.inr (Or.inr h1)
      | some c =>
        simp only [] at h
        cases ht : truthyA c with
        | true =>
          rw [ht] at h
          simp only [if_true] at h
          cases hwalk : walkSetA f c nx rest v with
          | error e => rw [hwalk] at h; simp at h
          | ok p =>
            obtain ⟨fmid, c2⟩ := p
            rw [hwalk] at h
            simp only [] at h
            cases hset : setSegA cur s c2 with
            | error e => rw [hset] at h; simp at h
            | ok o =>
              rw [hset] at h
              simp only [Except.ok.injEq, Prod.mk.injEq] at h
              intro a ha
              rcases setSegA_addrs cur s c2 o hset a (by rw [h.2]; exact ha) with hm | hm
              · exact Or.inl hm
              · rcases walkSetA_addrs rest f c nx v fmid c2 hwalk a hm with h1 | h1 | h1
                · exact Or.inl (getSegA_addrs cur s c hget a h1)
                · exact Or.inr (Or.inl h1)
                · exact Or.inr (Or.inr h1)
        | false =>
          rw [ht] at h
          rw [if_neg Bool.false_ne_true] at h
          simp only [] at h
          cases hwalk : walkSetA (f + 1) (.obj f .nil) nx rest v with
          | error e => rw [hwalk] at h; simp at h
          | ok p =>
            obtain ⟨fmid, c2⟩ := p
            rw [hwalk] at h
            simp only [] at h
            cases hset : setSegA cur s c2 with
            | error e => rw [hset] at h; simp at h
            | ok o =>
              rw [hset] at h
              simp only [Except.ok.injEq, Prod.mk.injEq] at h
              intro a ha
              rcases setSegA_addrs cur s c2 o hset a (by rw [h.2]; exact ha) with hm | hm
              · exact Or.inl hm
              · rcases walkSetA_addrs rest (f + 1) (.obj f .nil) nx v fmid c2 hwalk a hm
                  with h1 | h1 | h1
                · have haf : a = f := by
                    simpa [AVal.addrs, AFields.addrs] using h1
                  exact Or.inr (Or.inl (by omega))
                · exact Or.inr (Or.inl (by omega))
                · exact Or.inr (Or.inr h1)

/-- Claim C5 counterexample: for the empty (falsy) path string the code
returns the input document itself - the returned value IS the input, so
every part of it is reference-identical to a part of the input, against
the claim's universal no-sharing statement. -/
theorem updateJsonAtPathA_returns_input :
    updateJsonAtPathA 10 (.obj 0 .nil) "" .null = .ok (.obj 0 .nil)
    ∧ sharesAddr (.obj 0 .nil) (.obj 0 .nil) = true :=
  ⟨rfl, by decide⟩

/-- Amended claim C5: for every non-empty path string, the patched value
shares no heap address with the input document, provided the replacement
value itself shares none with it - the deep clone of source line 170
allocates only fresh addresses, the vivified empty objects are fresh
allocations, and the replacement value is the one datum inserted by
reference. (For the empty path string the input itself is returned, and
a replacement value aliasing the document stays aliased in the result;
in the modal both the document and the replacement come from their own
JSON.parse calls, so there the hypotheses hold. The no-mutation half of
the claim is the clone-then-walk structure itself: the walk touches
only the clone, never the input tree.) -/
theorem updateJsonAtPathA_no_sharing (f : Nat) (root : AVal) (path : String) (v out : AVal)
    (hpath : path ≠ "")
    (hroot : root.addrs.all (fun a => a < f) = true)
    (hv : sharesAddr v root = false)
    (hrun : updateJsonAtPathA f root path v = .ok out) :
    sharesAddr out root = false := by
  have hroot2 : ∀ a ∈ root.addrs, a < f := by
    intro a ha
    have := List.all_eq_true.mp hroot a ha
    simpa using this
  have hv2 : ∀ a ∈ v.addrs, a ∉ root.addrs := by
    intro a ha hb
    unfold sharesAddr at hv
    have h3 := List.any_eq_false.mp hv a ha
    apply h3
    rw [List.contains_eq_any_beq]
    apply List.any_eq_true.mpr
    exact ⟨a, hb, by simp⟩
  have hout : ∀ a ∈ out.addrs, a ∉ root.addrs := by
    unfold updateJsonAtPathA at hrun
    rw [if_neg hpath] at hrun
    cases hp : parsePath path with
    | nil =>
      rw [hp] at hrun
      simp only [] at hrun
      cases hset : setSegA (AVal.clone f root).2 (.str "undefined") v with
      | error e => rw [hset] at hrun; simp at hrun
      | ok o =>
        rw [hset] at hrun
        simp only [Except.ok.injEq] at hrun
        intro a ha hb
        rcases setSegA_addrs (AVal.clone f root).2 (.str "undefined") v o hset a
            (by rw [hrun]; exact ha) with hm | hm
        · have := cloneVal_addrs_ge f root a hm
          have := hroot2 a hb
          omega
        · exact hv2 a hm hb
    | cons s rest =>
      rw [hp] at hrun
      simp only [] at hrun
      cases hwalk : walkSetA (AVal.clone f root).1 (AVal.clone f root).2 s rest v with
      | error e => rw [hwalk] at hrun; simp at hrun
      | ok p =>
        obtain ⟨fmid, o⟩ := p
        rw [hwalk] at hrun
        simp only [Except.ok.injEq] at hrun
        intro a ha hb
        rcases walkSetA_addrs rest (AVal.clone f root).1 (AVal.clone f root).2 s v fmid o
            hwalk a (by rw [hrun]; exact ha) with hm | hm | hm
        · have := cloneVal_addrs_ge f root a hm
          have := hroot2 a hb
          omega
        · have := cloneVal_counter_le f root
          have := hroot2 a hb
          omega
        · exact hv2 a hm hb
  unfold sharesAddr
  apply List.any_eq_false.mpr
  intro a ha
  intro hcon
  rw [List.contains_eq_any_beq] at hcon
  obtain ⟨b, hb, hab⟩ := List.any_eq_true.mp hcon
  have hab2 : a = b := by simpa using hab
  subst hab2
  exact hout a ha hb

/-- Witness for the amended claim C5: patching the one-key document at
its key with null; the result holds only the clone's fresh address and
shares nothing with the input. -/
theorem updateJsonAtPathA_no_sharing_witness :
    sharesAddr (.obj 10 (.cons "a" .null .nil)) (.obj 0 (.cons "a" (.num 1) .nil)) = false :=
  updateJsonAtPathA_no_sharing 10 (.obj 0 (.cons "a" (.num 1) .nil)) "$[\"a\"]" .null
    (.obj 10 (.cons "a" .null .nil)) (by decide) (by decide) (by decide) rfl
